import Mathlib

/-!
Verification of the arceos early (bump) allocator and the axstd chained-bucket
hash map, as a shallow embedding of the Rust sources
(modules/bump_allocator/src/lib.rs and ulib/axstd/src/collections.rs).

Machine integers: Rust usize values are modelled as Nat.  Subtraction in the
source that cannot underflow in the executions we quantify over is modelled by
truncated Nat subtraction; operation validity predicates exclude the inputs on
which the Rust code would panic (debug) or wrap (release).  The bit masking in
align_down and align_up is modelled exactly, with bitwise complement taken at
the 64-bit usize width.
-/

/-- The usize modulus, 2 to the 64. -/
def USIZE : Nat := 2 ^ 64

/-- Bitwise complement at usize width: for x below USIZE this is the Rust !x. -/
def usize_not (x : Nat) : Nat := USIZE - 1 - x

/-- Rust: const fn align_down(pos, align) = pos & !(align - 1). -/
def align_down (pos align : Nat) : Nat := pos &&& usize_not (align - 1)

/-- Rust: const fn align_up(pos, align) = (pos + align - 1) & !(align - 1). -/
def align_up (pos align : Nat) : Nat := (pos + align - 1) &&& usize_not (align - 1)

/-- The error type of the allocator crate (the two variants this code uses). -/
inductive AllocError where
  | NoMemory : AllocError
  | InvalidParam : AllocError
deriving DecidableEq, Repr

/-- AllocResult of the allocator crate. -/
abbrev AllocResult (α : Type) : Type := Except AllocError α

instance {ε α : Type} [DecidableEq ε] [DecidableEq α] : DecidableEq (Except ε α) := fun x y =>
  match x, y with
  | Except.ok a, Except.ok b => decidable_of_iff (a = b) (by simp)
  | Except.error e, Except.error f => decidable_of_iff (e = f) (by simp)
  | Except.ok _, Except.error _ => isFalse (by simp)
  | Except.error _, Except.ok _ => isFalse (by simp)

/-- The EarlyAllocator state: struct EarlyAllocator of the source.  The field
named end in Rust is end_ here because end is a Lean keyword. -/
structure EarlyAllocator where
  start : Nat
  end_ : Nat
  b_next : Nat
  b_alloc : Nat
  b_end : Nat
  p_alloc : Nat
  p_next : Nat
  p_end : Nat
deriving DecidableEq, Repr

namespace EarlyAllocator

/-- EarlyAllocator::new. -/
def new : EarlyAllocator :=
  { start := 0, end_ := 0, b_next := 0, b_alloc := 0, b_end := 0,
    p_alloc := 0, p_next := 0, p_end := 0 }

/-- EarlyAllocator::total_pages: (end - p_end) / PAGE_SIZE. -/
def total_pages (PAGE : Nat) (s : EarlyAllocator) : Nat :=
  (s.end_ - s.p_end) / PAGE

/-- EarlyAllocator::increase_bytes.  The Rust method mutates self and returns
AllocResult; we return the new state on success, the old state is untouched on
error. -/
def increase_bytes (PAGE : Nat) (s : EarlyAllocator) : AllocResult EarlyAllocator :=
  let e := s.b_end + PAGE
  if e > s.p_end then Except.error AllocError.NoMemory
  else Except.ok { s with b_end := e }

/-- EarlyAllocator::increase_pages: end = p_end - PAGE_SIZE * total_pages(). -/
def increase_pages (PAGE : Nat) (s : EarlyAllocator) : AllocResult EarlyAllocator :=
  let e := s.p_end - PAGE * total_pages PAGE s
  if e < s.b_end then Except.error AllocError.NoMemory
  else Except.ok { s with p_end := e }

/-- BaseAllocator::init(start, size): overwrites every field. -/
def init (start size : Nat) : EarlyAllocator :=
  { start := start, end_ := start + size, b_next := start, p_next := start + size,
    b_end := start, p_end := start + size, b_alloc := 0, p_alloc := 0 }

/-- BaseAllocator::add_memory: accepted and ignored. -/
def add_memory (_start _size : Nat) (s : EarlyAllocator) : AllocResult Unit × EarlyAllocator :=
  (Except.ok (), s)

/-- ByteAllocator::alloc(layout): layout carries size and align.  Returns the
allocated address and the post-state; on error the state is unchanged.  The
source wraps the returned address in NonNull::new(..).unwrap(), which panics
when that address is zero; the model returns the bare address, so runs in
which alloc would hand out address zero lie outside the modelled behaviour,
and every concrete execution below keeps byte allocations at nonzero
addresses. -/
def alloc (PAGE size align : Nat) (s : EarlyAllocator) : AllocResult Nat × EarlyAllocator :=
  let alloc_start := align_up s.b_next align
  let alloc_end := alloc_start + size
  if alloc_end ≥ s.b_end then
    match increase_bytes PAGE s with
    | Except.error _ => (Except.error AllocError.NoMemory, s)
    | Except.ok s1 =>
        (Except.ok alloc_start, { s1 with b_alloc := s1.b_alloc + 1, b_next := alloc_end })
  else
    (Except.ok alloc_start, { s with b_alloc := s.b_alloc + 1, b_next := alloc_end })

/-- ByteAllocator::dealloc: b_alloc -= 1; if zero, b_next = start. -/
def dealloc (s : EarlyAllocator) : EarlyAllocator :=
  let b := s.b_alloc - 1
  if b = 0 then { s with b_alloc := b, b_next := s.start }
  else { s with b_alloc := b }

/-- ByteAllocator::total_bytes. -/
def total_bytes (s : EarlyAllocator) : Nat := s.b_end - s.start

/-- ByteAllocator::used_bytes. -/
def used_bytes (s : EarlyAllocator) : Nat := s.b_next - s.start

/-- ByteAllocator::available_bytes. -/
def available_bytes (s : EarlyAllocator) : Nat := s.b_end - s.b_next

/-- PageAllocator::alloc_pages(num_pages, align_pow2). -/
def alloc_pages (PAGE num_pages align_pow2 : Nat) (s : EarlyAllocator) :
    AllocResult Nat × EarlyAllocator :=
  if align_pow2 % PAGE ≠ 0 then (Except.error AllocError.InvalidParam, s)
  else
    let ap := align_pow2 / PAGE
    let alloc_start := align_down (s.p_next - num_pages * PAGE) ap
    if alloc_start ≤ s.p_end then
      match increase_pages PAGE s with
      | Except.error _ => (Except.error AllocError.NoMemory, s)
      | Except.ok s1 =>
          (Except.ok alloc_start, { s1 with p_alloc := s1.p_alloc + 1, p_next := alloc_start })
    else
      (Except.ok alloc_start, { s with p_alloc := s.p_alloc + 1, p_next := alloc_start })

/-- PageAllocator::dealloc_pages: p_alloc -= 1; if zero, p_next = end. -/
def dealloc_pages (s : EarlyAllocator) : EarlyAllocator :=
  let p := s.p_alloc - 1
  if p = 0 then { s with p_alloc := p, p_next := s.end_ }
  else { s with p_alloc := p }

/-- PageAllocator::used_pages. -/
def used_pages (PAGE : Nat) (s : EarlyAllocator) : Nat := (s.end_ - s.p_next) / PAGE

/-- PageAllocator::available_pages. -/
def available_pages (PAGE : Nat) (s : EarlyAllocator) : Nat := (s.p_next - s.p_end) / PAGE

end EarlyAllocator

/-- One operation issued to an initialized allocator. -/
inductive Op where
  | opAlloc (size align : Nat) : Op
  | opDealloc : Op
  | opAllocPages (num_pages align : Nat) : Op
  | opDeallocPages : Op
  | opAddMemory (start size : Nat) : Op
deriving DecidableEq, Repr

/-- State transition of one operation (the result value is dropped). -/
def step (PAGE : Nat) (s : EarlyAllocator) : Op → EarlyAllocator
  | Op.opAlloc size align => (EarlyAllocator.alloc PAGE size align s).2
  | Op.opDealloc => EarlyAllocator.dealloc s
  | Op.opAllocPages n a => (EarlyAllocator.alloc_pages PAGE n a s).2
  | Op.opDeallocPages => EarlyAllocator.dealloc_pages s
  | Op.opAddMemory st sz => (EarlyAllocator.add_memory st sz s).2

/-- Run a list of operations. -/
def run (PAGE : Nat) (s : EarlyAllocator) (ops : List Op) : EarlyAllocator :=
  ops.foldl (step PAGE) s

/-- Validity of an operation in a state: exactly the conditions under which the
Rust code neither panics on usize underflow or overflow (debug) nor wraps
(release).  Deallocation requires a positive outstanding count; byte allocation
requires a power-of-two alignment (guaranteed by Layout in Rust) and that the
candidate end stays a usize; page allocation with an alignment that is a
multiple of the page size requires the alignment to be at least one page and
the subtraction from p_next not to underflow. -/
def ValidOp (PAGE : Nat) (s : EarlyAllocator) : Op → Prop
  | Op.opAlloc size align => (∃ k, align = 2 ^ k) ∧ s.b_next + align + size ≤ USIZE
  | Op.opDealloc => 0 < s.b_alloc
  | Op.opAllocPages n a => a % PAGE = 0 → (PAGE ≤ a ∧ n * PAGE ≤ s.p_next)
  | Op.opDeallocPages => 0 < s.p_alloc
  | Op.opAddMemory _ _ => True

/-- Validity of a whole operation sequence from a given state. -/
def ValidTrace (PAGE : Nat) : EarlyAllocator → List Op → Prop
  | _, [] => True
  | s, op :: rest => ValidOp PAGE s op ∧ ValidTrace PAGE (step PAGE s op) rest

/-! ### Arithmetic facts about the bit masking -/

/-- The high mask at width 64: x &&& (2^64 - 2^k) clears the k low bits of
x mod 2^64. -/
theorem land_high_mask (x k : Nat) (hk : k ≤ 64) :
    x &&& (2 ^ 64 - 2 ^ k) = (x % 2 ^ 64) - (x % 2 ^ 64) % 2 ^ k := by
  have hfac : 2 ^ 64 - 2 ^ k = 2 ^ k * (2 ^ (64 - k) - 1) := by
    have h1 : (2 : Nat) ^ k * 2 ^ (64 - k) = 2 ^ 64 := by
      rw [← pow_add]
      congr 1
      omega
    have h2 : (1 : Nat) ≤ 2 ^ (64 - k) := Nat.one_le_two_pow
    calc 2 ^ 64 - 2 ^ k = 2 ^ k * 2 ^ (64 - k) - 2 ^ k * 1 := by rw [h1, Nat.mul_one]
    _ = 2 ^ k * (2 ^ (64 - k) - 1) := by rw [Nat.mul_sub]
  have hdm := Nat.div_add_mod (x % 2 ^ 64) (2 ^ k)
  have hrhs : (x % 2 ^ 64) - (x % 2 ^ 64) % 2 ^ k = 2 ^ k * ((x % 2 ^ 64) / 2 ^ k) := by omega
  rw [hfac, hrhs]
  apply Nat.eq_of_testBit_eq
  intro i
  rw [Nat.testBit_and]
  by_cases hik : i < k
  · have h1 : Nat.testBit (2 ^ k * (2 ^ (64 - k) - 1)) i = false := by
      rw [Nat.testBit_mul_pow_two]
      simp [Nat.not_le_of_lt hik]
    have h2 : Nat.testBit (2 ^ k * (x % 2 ^ 64 / 2 ^ k)) i = false := by
      rw [Nat.testBit_mul_pow_two]
      simp [Nat.not_le_of_lt hik]
    rw [h1, h2, Bool.and_false]
  · have hik' : k ≤ i := Nat.le_of_not_lt hik
    by_cases hi64 : i < 64
    · have h1 : Nat.testBit (2 ^ k * (2 ^ (64 - k) - 1)) i = true := by
        rw [Nat.testBit_mul_pow_two, Nat.testBit_two_pow_sub_one]
        have hlt : i - k < 64 - k := by omega
        simp [hik', hlt]
      have h2 : Nat.testBit (2 ^ k * (x % 2 ^ 64 / 2 ^ k)) i = Nat.testBit (x % 2 ^ 64) i := by
        rw [Nat.testBit_mul_pow_two]
        have hd : decide (i ≥ k) = true := by simp [hik']
        rw [hd, Bool.true_and]
        rw [Nat.testBit_to_div_mod, Nat.testBit_to_div_mod, Nat.div_div_eq_div_mul, ← pow_add]
        rw [Nat.add_sub_cancel' hik']
      rw [h1, h2, Bool.and_true]
      rw [Nat.testBit_mod_two_pow]
      simp [hi64]
    · have hle : (2 : Nat) ^ 64 ≤ 2 ^ i := Nat.pow_le_pow_right (by omega) (by omega)
      have h1 : Nat.testBit (2 ^ k * (2 ^ (64 - k) - 1)) i = false := by
        apply Nat.testBit_lt_two_pow
        calc 2 ^ k * (2 ^ (64 - k) - 1) = 2 ^ 64 - 2 ^ k := hfac.symm
        _ < 2 ^ 64 := by have := Nat.one_le_two_pow (n := k); omega
        _ ≤ 2 ^ i := hle
      have h2 : Nat.testBit (2 ^ k * (x % 2 ^ 64 / 2 ^ k)) i = false := by
        apply Nat.testBit_lt_two_pow
        calc 2 ^ k * (x % 2 ^ 64 / 2 ^ k) ≤ x % 2 ^ 64 := Nat.mul_div_le _ _
        _ < 2 ^ 64 := Nat.mod_lt _ (by positivity)
        _ ≤ 2 ^ i := hle
      rw [h1, h2, Bool.and_false]

/-- The usize complement of 2^k - 1 is the high mask, for k ≤ 64. -/
theorem usize_not_two_pow_sub_one (k : Nat) (hk : k ≤ 64) :
    usize_not (2 ^ k - 1) = 2 ^ 64 - 2 ^ k := by
  have h1 : (1 : Nat) ≤ 2 ^ k := Nat.one_le_two_pow
  have h2 : (2 : Nat) ^ k ≤ 2 ^ 64 := Nat.pow_le_pow_right (by omega) hk
  simp only [usize_not, USIZE]
  omega

/-- align_down for a power-of-two alignment, on in-range input. -/
theorem align_down_eq (x k : Nat) (hk : k ≤ 64) (hx : x < USIZE) :
    align_down x (2 ^ k) = x - x % 2 ^ k := by
  have hx' : x % 2 ^ 64 = x := Nat.mod_eq_of_lt hx
  rw [align_down, usize_not_two_pow_sub_one k hk, land_high_mask x k hk, hx']

/-- align_up for a power-of-two alignment, on in-range input. -/
theorem align_up_eq (x k : Nat) (hk : k ≤ 64) (hx : x + 2 ^ k - 1 < USIZE) :
    align_up x (2 ^ k) = (x + 2 ^ k - 1) - (x + 2 ^ k - 1) % 2 ^ k := by
  have hx' : (x + 2 ^ k - 1) % 2 ^ 64 = x + 2 ^ k - 1 := Nat.mod_eq_of_lt hx
  rw [align_up, usize_not_two_pow_sub_one k hk, land_high_mask _ k hk, hx']

/-- align_down never exceeds its input. -/
theorem align_down_le (x a : Nat) : align_down x a ≤ x :=
  Nat.and_le_left

/-- A power of two at most 2^64 has exponent at most 64. -/
theorem pow_le_sixtyfour {k : Nat} (h : 2 ^ k ≤ 2 ^ 64) : k ≤ 64 :=
  (Nat.pow_le_pow_iff_right (by omega)).mp h

/-- align_up is at least its input when the Rust computation stays in usize
range. -/
theorem align_up_ge (x k : Nat) (hx : x + 2 ^ k ≤ USIZE) : x ≤ align_up x (2 ^ k) := by
  have h1 : (1 : Nat) ≤ 2 ^ k := Nat.one_le_two_pow
  have hk : k ≤ 64 := pow_le_sixtyfour (by unfold USIZE at hx; omega)
  have hx' : x + 2 ^ k - 1 < USIZE := by omega
  rw [align_up_eq x k hk hx']
  have := Nat.mod_lt (x + 2 ^ k - 1) (y := 2 ^ k) (by omega)
  omega

/-- align_up lands exactly on x when the alignment divides x. -/
theorem align_up_of_dvd (x k : Nat) (hd : 2 ^ k ∣ x) (hx : x + 2 ^ k ≤ USIZE) :
    align_up x (2 ^ k) = x := by
  have h1 : (1 : Nat) ≤ 2 ^ k := Nat.one_le_two_pow
  have hk : k ≤ 64 := pow_le_sixtyfour (by unfold USIZE at hx; omega)
  have hx' : x + 2 ^ k - 1 < USIZE := by omega
  rw [align_up_eq x k hk hx']
  have hm : x % 2 ^ k = 0 := Nat.mod_eq_zero_of_dvd hd
  have e : x + 2 ^ k - 1 = x + (2 ^ k - 1) := by omega
  have h2 : (x + 2 ^ k - 1) % 2 ^ k = 2 ^ k - 1 := by
    rw [e, Nat.add_mod, hm]
    simp [Nat.mod_eq_of_lt (show 2 ^ k - 1 < 2 ^ k by omega)]
  omega

/-- The result of align_up with a power-of-two alignment is a multiple of the
alignment, with no range condition. -/
theorem dvd_align_up (x k : Nat) : 2 ^ k ∣ align_up x (2 ^ k) := by
  by_cases hk : k ≤ 64
  · rw [align_up, usize_not_two_pow_sub_one k hk, land_high_mask _ k hk]
    have hdm := Nat.div_add_mod ((x + 2 ^ k - 1) % 2 ^ 64) (2 ^ k)
    have : (x + 2 ^ k - 1) % 2 ^ 64 - (x + 2 ^ k - 1) % 2 ^ 64 % 2 ^ k =
        2 ^ k * ((x + 2 ^ k - 1) % 2 ^ 64 / 2 ^ k) := by omega
    rw [this]
    exact Dvd.intro _ rfl
  · have h1 : (2 : Nat) ^ 64 ≤ 2 ^ k := Nat.pow_le_pow_right (by omega) (by omega)
    have hz : usize_not (2 ^ k - 1) = 0 := by
      simp only [usize_not, USIZE]
      omega
    rw [align_up, hz]
    simp

/-- The result of align_down with a power-of-two alignment is a multiple of the
alignment. -/
theorem dvd_align_down (x k : Nat) : 2 ^ k ∣ align_down x (2 ^ k) := by
  by_cases hk : k ≤ 64
  · rw [align_down, usize_not_two_pow_sub_one k hk, land_high_mask _ k hk]
    have hdm := Nat.div_add_mod (x % 2 ^ 64) (2 ^ k)
    have : x % 2 ^ 64 - x % 2 ^ 64 % 2 ^ k = 2 ^ k * (x % 2 ^ 64 / 2 ^ k) := by omega
    rw [this]
    exact Dvd.intro _ rfl
  · have h1 : (2 : Nat) ^ 64 ≤ 2 ^ k := Nat.pow_le_pow_right (by omega) (by omega)
    have hz : usize_not (2 ^ k - 1) = 0 := by
      simp only [usize_not, USIZE]
      omega
    rw [align_down, hz]
    simp

/-! ### Case analysis of the two allocation paths -/

/-- Complete case analysis of ByteAllocator::alloc, read off the source: the
candidate start is b_next rounded up, the candidate end adds the size; growth
of b_end by one page happens exactly when the candidate end reaches b_end, and
the call fails exactly when that grown ceiling would pass p_end. -/
theorem alloc_cases (PAGE size align : Nat) (s : EarlyAllocator) :
    (s.b_end ≤ align_up s.b_next align + size ∧ s.p_end < s.b_end + PAGE ∧
      EarlyAllocator.alloc PAGE size align s = (Except.error AllocError.NoMemory, s)) ∨
    (s.b_end ≤ align_up s.b_next align + size ∧ s.b_end + PAGE ≤ s.p_end ∧
      EarlyAllocator.alloc PAGE size align s = (Except.ok (align_up s.b_next align),
        { s with b_end := s.b_end + PAGE, b_alloc := s.b_alloc + 1,
                 b_next := align_up s.b_next align + size })) ∨
    (align_up s.b_next align + size < s.b_end ∧
      EarlyAllocator.alloc PAGE size align s = (Except.ok (align_up s.b_next align),
        { s with b_alloc := s.b_alloc + 1, b_next := align_up s.b_next align + size })) := by
  unfold EarlyAllocator.alloc EarlyAllocator.increase_bytes
  by_cases h1 : align_up s.b_next align + size ≥ s.b_end
  · by_cases h2 : s.b_end + PAGE > s.p_end
    · left
      refine ⟨h1, h2, ?_⟩
      simp [h1, h2]
    · right; left
      refine ⟨h1, by omega, ?_⟩
      simp [h1, h2]
  · right; right
    refine ⟨by omega, ?_⟩
    simp [h1]

/-- Complete case analysis of PageAllocator::alloc_pages, read off the source. -/
theorem alloc_pages_cases (PAGE n a : Nat) (s : EarlyAllocator) :
    (a % PAGE ≠ 0 ∧
      EarlyAllocator.alloc_pages PAGE n a s = (Except.error AllocError.InvalidParam, s)) ∨
    (a % PAGE = 0 ∧ align_down (s.p_next - n * PAGE) (a / PAGE) ≤ s.p_end ∧
      s.p_end - PAGE * EarlyAllocator.total_pages PAGE s < s.b_end ∧
      EarlyAllocator.alloc_pages PAGE n a s = (Except.error AllocError.NoMemory, s)) ∨
    (a % PAGE = 0 ∧ align_down (s.p_next - n * PAGE) (a / PAGE) ≤ s.p_end ∧
      s.b_end ≤ s.p_end - PAGE * EarlyAllocator.total_pages PAGE s ∧
      EarlyAllocator.alloc_pages PAGE n a s =
        (Except.ok (align_down (s.p_next - n * PAGE) (a / PAGE)),
         { s with p_end := s.p_end - PAGE * EarlyAllocator.total_pages PAGE s,
                  p_alloc := s.p_alloc + 1,
                  p_next := align_down (s.p_next - n * PAGE) (a / PAGE) })) ∨
    (a % PAGE = 0 ∧ s.p_end < align_down (s.p_next - n * PAGE) (a / PAGE) ∧
      EarlyAllocator.alloc_pages PAGE n a s =
        (Except.ok (align_down (s.p_next - n * PAGE) (a / PAGE)),
         { s with p_alloc := s.p_alloc + 1,
                  p_next := align_down (s.p_next - n * PAGE) (a / PAGE) })) := by
  unfold EarlyAllocator.alloc_pages EarlyAllocator.increase_pages
  by_cases h0 : a % PAGE = 0
  · by_cases h1 : align_down (s.p_next - n * PAGE) (a / PAGE) ≤ s.p_end
    · by_cases h2 : s.p_end - PAGE * EarlyAllocator.total_pages PAGE s < s.b_end
      · right; left
        refine ⟨h0, h1, h2, ?_⟩
        simp [h0, h1, h2]
      · right; right; left
        refine ⟨h0, h1, by omega, ?_⟩
        simp [h0, h1, h2]
    · right; right; right
      refine ⟨h0, by omega, ?_⟩
      simp [h0, h1]
  · left
    refine ⟨h0, ?_⟩
    simp [h0]

/-! ### The reachable-state invariant -/

/-- The part of the documented state invariant that the code actually
maintains: both frontiers stay at or above start respectively at or below end,
the byte ceiling stays between start and the page floor, and the page floor
never moves away from end. -/
def StateInv (s : EarlyAllocator) : Prop :=
  s.start ≤ s.b_next ∧ s.start ≤ s.b_end ∧ s.b_end ≤ s.p_end ∧
  s.p_end = s.end_ ∧ s.p_next ≤ s.end_

/-- A valid operation preserves the invariant. -/
theorem inv_step (PAGE : Nat) (s : EarlyAllocator) (op : Op)
    (hI : StateInv s) (hV : ValidOp PAGE s op) : StateInv (step PAGE s op) := by
  obtain ⟨h1, h2, h3, h4, h5⟩ := hI
  cases op with
  | opAlloc size align =>
      obtain ⟨⟨k, hk⟩, hb⟩ := hV
      subst hk
      have hge : s.b_next ≤ align_up s.b_next (2 ^ k) :=
        align_up_ge s.b_next k (by omega)
      rcases alloc_cases PAGE size (2 ^ k) s with ⟨_, _, he⟩ | ⟨_, _, he⟩ | ⟨_, he⟩ <;>
        (unfold StateInv; simp only [step, he]; omega)
  | opDealloc =>
      unfold StateInv step EarlyAllocator.dealloc
      dsimp only
      split <;> (dsimp only; omega)
  | opAllocPages n a =>
      rcases alloc_pages_cases PAGE n a s with ⟨_, he⟩ | ⟨_, _, _, he⟩ | ⟨h0, _, _, he⟩ | ⟨h0, hgt, he⟩
      · simp only [step, he]; exact ⟨h1, h2, h3, h4, h5⟩
      · simp only [step, he]; exact ⟨h1, h2, h3, h4, h5⟩
      · have htp : EarlyAllocator.total_pages PAGE s = 0 := by
          simp [EarlyAllocator.total_pages, h4]
        have hpn : n * PAGE ≤ s.p_next := ((hV h0).2)
        have hle : align_down (s.p_next - n * PAGE) (a / PAGE) ≤ s.p_next :=
          le_trans (align_down_le _ _) (by omega)
        unfold StateInv
        simp only [step, he, htp]
        omega
      · have hpn : n * PAGE ≤ s.p_next := ((hV h0).2)
        have hle : align_down (s.p_next - n * PAGE) (a / PAGE) ≤ s.p_next :=
          le_trans (align_down_le _ _) (by omega)
        unfold StateInv
        simp only [step, he]
        omega
  | opDeallocPages =>
      unfold StateInv step EarlyAllocator.dealloc_pages
      dsimp only
      split <;> (dsimp only; omega)
  | opAddMemory st sz =>
      simp only [step, EarlyAllocator.add_memory]
      exact ⟨h1, h2, h3, h4, h5⟩

/-- The state right after init satisfies the invariant. -/
theorem inv_init (start size : Nat) : StateInv (EarlyAllocator.init start size) := by
  simp [StateInv, EarlyAllocator.init]

/-- The invariant holds after any valid operation sequence. -/
theorem inv_run (PAGE : Nat) (s : EarlyAllocator) (ops : List Op)
    (hI : StateInv s) (hV : ValidTrace PAGE s ops) : StateInv (run PAGE s ops) := by
  induction ops generalizing s with
  | nil => exact hI
  | cons op rest ih =>
      obtain ⟨hop, hrest⟩ := hV
      exact ih (step PAGE s op) (inv_step PAGE s op hI hop) hrest

/-- No operation ever changes start or end. -/
theorem step_start_end (PAGE : Nat) (s : EarlyAllocator) (op : Op) :
    (step PAGE s op).start = s.start ∧ (step PAGE s op).end_ = s.end_ := by
  cases op with
  | opAlloc size align =>
      rcases alloc_cases PAGE size align s with ⟨_, _, he⟩ | ⟨_, _, he⟩ | ⟨_, he⟩ <;>
        simp [step, he]
  | opDealloc =>
      simp only [step, EarlyAllocator.dealloc]
      by_cases hz : s.b_alloc - 1 = 0 <;> simp [hz]
  | opAllocPages n a =>
      rcases alloc_pages_cases PAGE n a s with ⟨_, he⟩ | ⟨_, _, _, he⟩ | ⟨_, _, _, he⟩ | ⟨_, _, he⟩ <;>
        simp [step, he]
  | opDeallocPages =>
      simp only [step, EarlyAllocator.dealloc_pages]
      by_cases hz : s.p_alloc - 1 = 0 <;> simp [hz]
  | opAddMemory st sz => simp [step, EarlyAllocator.add_memory]

/-- No operation sequence ever changes start or end. -/
theorem run_start_end (PAGE : Nat) (s : EarlyAllocator) (ops : List Op) :
    (run PAGE s ops).start = s.start ∧ (run PAGE s ops).end_ = s.end_ := by
  induction ops generalizing s with
  | nil => exact ⟨rfl, rfl⟩
  | cons op rest ih =>
      have h1 := step_start_end PAGE s op
      have h2 := ih (step PAGE s op)
      exact ⟨h2.1.trans h1.1, h2.2.trans h1.2⟩

/-- Under the invariant, alloc_pages can never report NoMemory: the page-growth
step subtracts PAGE * total_pages, and total_pages is zero because p_end still
equals end. -/
theorem alloc_pages_ne_noMemory (PAGE n a : Nat) (s : EarlyAllocator)
    (h3 : s.b_end ≤ s.p_end) (h4 : s.p_end = s.end_) :
    (EarlyAllocator.alloc_pages PAGE n a s).1 ≠ Except.error AllocError.NoMemory := by
  have htp : EarlyAllocator.total_pages PAGE s = 0 := by
    simp [EarlyAllocator.total_pages, h4]
  rcases alloc_pages_cases PAGE n a s with ⟨_, he⟩ | ⟨_, _, hlt, he⟩ | ⟨_, _, _, he⟩ | ⟨_, _, he⟩ <;>
    simp only [he]
  · simp
  · rw [htp] at hlt; omega
  · simp
  · simp

/-! ### C1: the documented six-term invariant chain -/

/-- C1 counterexample: a single valid page allocation right after init already
violates the claimed chain start ≤ b_next ≤ b_end ≤ p_end ≤ p_next ≤ end,
because p_next drops one page below p_end while p_end stays at end. -/
theorem c1_counterexample :
    ValidTrace 4096 (EarlyAllocator.init 0 65536) [Op.opAllocPages 1 4096] ∧
    ¬ (let s := run 4096 (EarlyAllocator.init 0 65536) [Op.opAllocPages 1 4096]
       s.start ≤ s.b_next ∧ s.b_next ≤ s.b_end ∧ s.b_end ≤ s.p_end ∧
       s.p_end ≤ s.p_next ∧ s.p_next ≤ s.end_) := by
  refine ⟨⟨?_, trivial⟩, by decide⟩
  unfold ValidOp
  decide

/-- C1 (amended): after init and any sequence of valid operations the state
satisfies start ≤ b_next, start ≤ b_end ≤ p_end = end and p_next ≤ end; the
other two links of the documented chain, b_next ≤ b_end and p_end ≤ p_next,
do not hold in general. -/
theorem c1_amended (PAGE start size : Nat) (ops : List Op)
    (hV : ValidTrace PAGE (EarlyAllocator.init start size) ops) :
    (run PAGE (EarlyAllocator.init start size) ops).start ≤
      (run PAGE (EarlyAllocator.init start size) ops).b_next ∧
    (run PAGE (EarlyAllocator.init start size) ops).start ≤
      (run PAGE (EarlyAllocator.init start size) ops).b_end ∧
    (run PAGE (EarlyAllocator.init start size) ops).b_end ≤
      (run PAGE (EarlyAllocator.init start size) ops).p_end ∧
    (run PAGE (EarlyAllocator.init start size) ops).p_end =
      (run PAGE (EarlyAllocator.init start size) ops).end_ ∧
    (run PAGE (EarlyAllocator.init start size) ops).p_next ≤
      (run PAGE (EarlyAllocator.init start size) ops).end_ :=
  inv_run PAGE (EarlyAllocator.init start size) ops (inv_init start size) hV

/-- Witness for c1_amended on a concrete valid trace. -/
theorem c1_witness :
    ValidTrace 4096 (EarlyAllocator.init 4096 65536)
      [Op.opAlloc 8 8, Op.opDealloc, Op.opAllocPages 1 4096] ∧
    ((run 4096 (EarlyAllocator.init 4096 65536)
        [Op.opAlloc 8 8, Op.opDealloc, Op.opAllocPages 1 4096]).start ≤
      (run 4096 (EarlyAllocator.init 4096 65536)
        [Op.opAlloc 8 8, Op.opDealloc, Op.opAllocPages 1 4096]).b_next ∧
    (run 4096 (EarlyAllocator.init 4096 65536)
        [Op.opAlloc 8 8, Op.opDealloc, Op.opAllocPages 1 4096]).start ≤
      (run 4096 (EarlyAllocator.init 4096 65536)
        [Op.opAlloc 8 8, Op.opDealloc, Op.opAllocPages 1 4096]).b_end ∧
    (run 4096 (EarlyAllocator.init 4096 65536)
        [Op.opAlloc 8 8, Op.opDealloc, Op.opAllocPages 1 4096]).b_end ≤
      (run 4096 (EarlyAllocator.init 4096 65536)
        [Op.opAlloc 8 8, Op.opDealloc, Op.opAllocPages 1 4096]).p_end ∧
    (run 4096 (EarlyAllocator.init 4096 65536)
        [Op.opAlloc 8 8, Op.opDealloc, Op.opAllocPages 1 4096]).p_end =
      (run 4096 (EarlyAllocator.init 4096 65536)
        [Op.opAlloc 8 8, Op.opDealloc, Op.opAllocPages 1 4096]).end_ ∧
    (run 4096 (EarlyAllocator.init 4096 65536)
        [Op.opAlloc 8 8, Op.opDealloc, Op.opAllocPages 1 4096]).p_next ≤
      (run 4096 (EarlyAllocator.init 4096 65536)
        [Op.opAlloc 8 8, Op.opDealloc, Op.opAllocPages 1 4096]).end_) := by
  have hV : ValidTrace 4096 (EarlyAllocator.init 4096 65536)
      [Op.opAlloc 8 8, Op.opDealloc, Op.opAllocPages 1 4096] :=
    ⟨⟨⟨3, rfl⟩, by decide⟩, by unfold ValidOp; decide, by unfold ValidOp; decide, trivial⟩
  exact ⟨hV, c1_amended 4096 4096 65536 _ hV⟩

/-! ### C2: p_end is frozen at end, so page-zone growth is a no-op -/

/-- C2: after init and any valid operation sequence, p_end still equals end
(hence total_pages is 0: the growth step of increase_pages subtracts
PAGE * total_pages = 0), and alloc_pages can never return NoMemory. -/
theorem c2_p_end_constant (PAGE start size : Nat) (ops : List Op)
    (hV : ValidTrace PAGE (EarlyAllocator.init start size) ops) :
    (run PAGE (EarlyAllocator.init start size) ops).p_end = start + size ∧
    EarlyAllocator.total_pages PAGE (run PAGE (EarlyAllocator.init start size) ops) = 0 ∧
    ∀ n a, a % PAGE = 0 →
      (EarlyAllocator.alloc_pages PAGE n a (run PAGE (EarlyAllocator.init start size) ops)).1 ≠
        Except.error AllocError.NoMemory := by
  obtain ⟨h1, h2, h3, h4, h5⟩ := inv_run PAGE _ ops (inv_init start size) hV
  have hse := run_start_end PAGE (EarlyAllocator.init start size) ops
  have hend : (run PAGE (EarlyAllocator.init start size) ops).end_ = start + size := by
    rw [hse.2]; rfl
  refine ⟨by omega, ?_, ?_⟩
  · simp [EarlyAllocator.total_pages, h4]
  · intro n a _
    exact alloc_pages_ne_noMemory PAGE n a _ h3 h4

/-- Witness for c2_p_end_constant on a concrete valid trace. -/
theorem c2_witness :
    ValidTrace 4096 (EarlyAllocator.init 0 65536) [Op.opAllocPages 1 4096] ∧
    (run 4096 (EarlyAllocator.init 0 65536) [Op.opAllocPages 1 4096]).p_end = 65536 ∧
    EarlyAllocator.total_pages 4096
      (run 4096 (EarlyAllocator.init 0 65536) [Op.opAllocPages 1 4096]) = 0 ∧
    (EarlyAllocator.alloc_pages 4096 1 4096
        (run 4096 (EarlyAllocator.init 0 65536) [Op.opAllocPages 1 4096])).1 ≠
      Except.error AllocError.NoMemory := by
  have hV : ValidTrace 4096 (EarlyAllocator.init 0 65536) [Op.opAllocPages 1 4096] :=
    ⟨by unfold ValidOp; decide, trivial⟩
  have h := c2_p_end_constant 4096 0 65536 [Op.opAllocPages 1 4096] hV
  exact ⟨hV, by simpa using h.1, h.2.1, h.2.2 1 4096 (by decide)⟩

/-! ### C9: non-page-multiple alignment is rejected with no state change -/

/-- C9: alloc_pages with an alignment that is not a multiple of the page size
fails with InvalidParam and returns the state unchanged. -/
theorem c9_invalid_param (PAGE n a : Nat) (s : EarlyAllocator) (ha : a % PAGE ≠ 0) :
    EarlyAllocator.alloc_pages PAGE n a s = (Except.error AllocError.InvalidParam, s) := by
  rcases alloc_pages_cases PAGE n a s with ⟨_, he⟩ | ⟨h0, _, _, _⟩ | ⟨h0, _, _, _⟩ | ⟨h0, _, _⟩
  · exact he
  all_goals exact absurd h0 ha

/-- Witness for c9_invalid_param. -/
theorem c9_witness :
    5 % 4096 ≠ 0 ∧
    EarlyAllocator.alloc_pages 4096 1 5 (EarlyAllocator.init 0 65536) =
      (Except.error AllocError.InvalidParam, EarlyAllocator.init 0 65536) :=
  ⟨by decide, c9_invalid_param 4096 1 5 (EarlyAllocator.init 0 65536) (by decide)⟩

/-! ### C6: exact behaviour of ByteAllocator::alloc -/

/-- C6: alloc computes candidate start align_up(b_next, align) and candidate
end start+size; when the candidate end reaches b_end it advances b_end by
exactly one page (at most one growth step) and fails with NoMemory exactly
when the advanced ceiling would pass p_end; on success it increments b_alloc,
sets b_next to the candidate end and returns the candidate start. -/
theorem c6_alloc_spec (PAGE size align : Nat) (s : EarlyAllocator) :
    (s.b_end ≤ align_up s.b_next align + size → s.p_end < s.b_end + PAGE →
      EarlyAllocator.alloc PAGE size align s = (Except.error AllocError.NoMemory, s)) ∧
    (s.b_end ≤ align_up s.b_next align + size → s.b_end + PAGE ≤ s.p_end →
      EarlyAllocator.alloc PAGE size align s =
        (Except.ok (align_up s.b_next align),
         { s with b_end := s.b_end + PAGE, b_alloc := s.b_alloc + 1,
                  b_next := align_up s.b_next align + size })) ∧
    (align_up s.b_next align + size < s.b_end →
      EarlyAllocator.alloc PAGE size align s =
        (Except.ok (align_up s.b_next align),
         { s with b_alloc := s.b_alloc + 1, b_next := align_up s.b_next align + size })) := by
  rcases alloc_cases PAGE size align s with ⟨h1, h2, he⟩ | ⟨h1, h2, he⟩ | ⟨h1, he⟩ <;>
    refine ⟨?_, ?_, ?_⟩ <;> intros <;> first | exact he | omega

/-- Witness for c6_alloc_spec: the first allocation of the worked example. -/
theorem c6_witness :
    ((EarlyAllocator.init 4096 65536).b_end ≤
      align_up (EarlyAllocator.init 4096 65536).b_next 8 + 8) ∧
    ((EarlyAllocator.init 4096 65536).b_end + 4096 ≤ (EarlyAllocator.init 4096 65536).p_end) ∧
    EarlyAllocator.alloc 4096 8 8 (EarlyAllocator.init 4096 65536) =
      (Except.ok (align_up (EarlyAllocator.init 4096 65536).b_next 8),
       { EarlyAllocator.init 4096 65536 with
         b_end := (EarlyAllocator.init 4096 65536).b_end + 4096,
         b_alloc := (EarlyAllocator.init 4096 65536).b_alloc + 1,
         b_next := align_up (EarlyAllocator.init 4096 65536).b_next 8 + 8 }) :=
  ⟨by decide, by decide, (c6_alloc_spec 4096 8 8 (EarlyAllocator.init 4096 65536)).2.1
      (by decide) (by decide)⟩

/-! ### C5: alignment of returned addresses -/

/-- C5 counterexample: alloc_pages(1, 8192) with page size 4096 succeeds but
returns an address that is not a multiple of 8192 (it is only a multiple of
8192 / 4096 = 2): the code aligns the byte address to the page-unit value. -/
theorem c5_counterexample :
    8192 % 4096 = 0 ∧
    (EarlyAllocator.alloc_pages 4096 1 8192 (EarlyAllocator.init 0 65536)).1 =
      Except.ok 61440 ∧
    ¬ (8192 ∣ 61440) := by decide

/-- C5 (amended): every successful alloc(size, align) with align a power of two
returns a multiple of align; a successful alloc_pages(n, align) returns a
multiple only of align / PAGE (the alignment converted to page units and
misapplied to the byte address), not of align itself. -/
theorem c5_alignment (PAGE size align k n a j : Nat) (s : EarlyAllocator) (addr : Nat) :
    (align = 2 ^ k → (EarlyAllocator.alloc PAGE size align s).1 = Except.ok addr →
      align ∣ addr) ∧
    (a / PAGE = 2 ^ j → (EarlyAllocator.alloc_pages PAGE n a s).1 = Except.ok addr →
      (a / PAGE) ∣ addr) := by
  constructor
  · intro hk hok
    subst hk
    rcases alloc_cases PAGE size (2 ^ k) s with ⟨_, _, he⟩ | ⟨_, _, he⟩ | ⟨_, he⟩ <;>
      rw [he] at hok <;> simp only [Except.ok.injEq] at hok
    · exact absurd hok (by simp)
    · exact hok ▸ dvd_align_up s.b_next k
    · exact hok ▸ dvd_align_up s.b_next k
  · intro hj hok
    rcases alloc_pages_cases PAGE n a s with ⟨_, he⟩ | ⟨_, _, _, he⟩ | ⟨_, _, _, he⟩ | ⟨_, _, he⟩ <;>
      rw [he] at hok <;> simp only [Except.ok.injEq] at hok
    · exact absurd hok (by simp)
    · exact absurd hok (by simp)
    · rw [hj] at hok ⊢
      exact hok ▸ dvd_align_down (s.p_next - n * PAGE) j
    · rw [hj] at hok ⊢
      exact hok ▸ dvd_align_down (s.p_next - n * PAGE) j

/-- Witness for c5_alignment: a successful byte and page allocation. -/
theorem c5_witness :
    ((8 : Nat) = 2 ^ 3 ∧
      (EarlyAllocator.alloc 4096 8 8 (EarlyAllocator.init 4096 65536)).1 = Except.ok 4096 ∧
      (8 : Nat) ∣ 4096) ∧
    ((8192 : Nat) / 4096 = 2 ^ 1 ∧
      (EarlyAllocator.alloc_pages 4096 1 8192 (EarlyAllocator.init 0 65536)).1 =
        Except.ok 61440 ∧
      (8192 : Nat) / 4096 ∣ 61440) := by
  refine ⟨⟨by decide, by decide, ?_⟩, ⟨by decide, by decide, ?_⟩⟩
  · exact (c5_alignment 4096 8 8 3 1 8192 1 (EarlyAllocator.init 4096 65536) 4096).1
      (by decide) (by decide)
  · exact (c5_alignment 4096 8 8 3 1 8192 1 (EarlyAllocator.init 0 65536) 61440).2
      (by decide) (by decide)

/-! ### C7: the worked example with page size 4096 and a 65536-byte region -/

/-- align_down with alignment 1 is the identity on usize values. -/
theorem align_down_one (y : Nat) (hy : y < USIZE) : align_down y 1 = y := by
  have h := align_down_eq y 0 (by norm_num) hy
  simpa [Nat.mod_one] using h

/-- C7 counterexample: the worked example instantiated at the page-aligned
start A = 4096 (alloc(8, 8) returns the nonzero address 4096, so the run is a
real execution).  The second call does return 61440 = 4096 + 65536 - 8192,
but it does not grow p_end downward: p_end is exactly where it was before the
call. -/
theorem c7_counterexample :
    (EarlyAllocator.alloc 4096 8 8 (EarlyAllocator.init 4096 65536)).1 =
      Except.ok 4096 ∧
    (EarlyAllocator.alloc_pages 4096 2 4096
        ((EarlyAllocator.alloc 4096 8 8 (EarlyAllocator.init 4096 65536)).2)).1 =
      Except.ok 61440 ∧
    ¬ (((EarlyAllocator.alloc_pages 4096 2 4096
          ((EarlyAllocator.alloc 4096 8 8 (EarlyAllocator.init 4096 65536)).2)).2).p_end <
        ((EarlyAllocator.alloc 4096 8 8 (EarlyAllocator.init 4096 65536)).2).p_end) := by
  decide

/-- C7 (amended): with page size 4096 and init(A, 65536) for page-aligned A,
alloc(8, 8) grows b_end to A + 4096 and returns A, and the subsequent
alloc_pages(2, 4096) returns A + 65536 - 8192 while leaving p_end unchanged at
A + 65536 (the downward growth step subtracts zero). -/
theorem c7_amended (A : Nat) (hA : 4096 ∣ A) (hbound : A + 65544 ≤ USIZE) :
    (EarlyAllocator.alloc 4096 8 8 (EarlyAllocator.init A 65536)).1 = Except.ok A ∧
    ((EarlyAllocator.alloc 4096 8 8 (EarlyAllocator.init A 65536)).2).b_end = A + 4096 ∧
    (EarlyAllocator.alloc_pages 4096 2 4096
        ((EarlyAllocator.alloc 4096 8 8 (EarlyAllocator.init A 65536)).2)).1 =
      Except.ok (A + 65536 - 8192) ∧
    ((EarlyAllocator.alloc_pages 4096 2 4096
        ((EarlyAllocator.alloc 4096 8 8 (EarlyAllocator.init A 65536)).2)).2).p_end =
      A + 65536 := by
  have h8A : (8 : Nat) ∣ A := dvd_trans (by norm_num) hA
  have hup : align_up A 8 = A := align_up_of_dvd A 3 h8A (by unfold USIZE at hbound ⊢; omega)
  have hbn : (EarlyAllocator.init A 65536).b_next = A := rfl
  rcases alloc_cases 4096 8 8 (EarlyAllocator.init A 65536) with
    ⟨h1, h2, he⟩ | ⟨h1, h2, he⟩ | ⟨h1, he⟩
  · exfalso
    simp only [EarlyAllocator.init] at h2
    omega
  · rw [hbn, hup] at he
    have hs1 : (EarlyAllocator.alloc 4096 8 8 (EarlyAllocator.init A 65536)).2 =
        { EarlyAllocator.init A 65536 with
          b_end := (EarlyAllocator.init A 65536).b_end + 4096,
          b_alloc := (EarlyAllocator.init A 65536).b_alloc + 1, b_next := A + 8 } := by
      rw [he]
    have hr1 : (EarlyAllocator.alloc 4096 8 8 (EarlyAllocator.init A 65536)).1 =
        Except.ok A := by rw [he]
    refine ⟨hr1, ?_, ?_, ?_⟩
    · rw [hs1]; simp [EarlyAllocator.init]
    all_goals {
      rw [hs1]
      simp only [EarlyAllocator.init]
      rcases alloc_pages_cases 4096 2 4096
        { start := A, end_ := A + 65536, b_next := A + 8, b_alloc := 0 + 1,
          b_end := A + 4096, p_alloc := 0, p_next := A + 65536, p_end := A + 65536 } with
        ⟨h0, _⟩ | ⟨h0, hc, hm, he2⟩ | ⟨h0, hc, hm, he2⟩ | ⟨h0, hgt, he2⟩
      · exact absurd rfl h0
      · exfalso
        simp only [EarlyAllocator.total_pages] at hm
        omega
      · have htp : EarlyAllocator.total_pages 4096
            { start := A, end_ := A + 65536, b_next := A + 8, b_alloc := 0 + 1,
              b_end := A + 4096, p_alloc := 0, p_next := A + 65536, p_end := A + 65536 } = 0 := by
          simp [EarlyAllocator.total_pages]
        have hst : align_down (A + 65536 - 2 * 4096) (4096 / 4096) = A + 65536 - 8192 := by
          have hd1 : (4096 : Nat) / 4096 = 1 := by norm_num
          rw [hd1, align_down_one (A + 65536 - 2 * 4096) (by unfold USIZE at hbound ⊢; omega)]
        rw [he2]
        simp [EarlyAllocator.total_pages, hst]
        try exact align_down_one _ (by unfold USIZE at hbound ⊢; omega)
      · exfalso
        have hst : align_down (A + 65536 - 2 * 4096) (4096 / 4096) = A + 65536 - 8192 := by
          have hd1 : (4096 : Nat) / 4096 = 1 := by norm_num
          rw [hd1, align_down_one (A + 65536 - 2 * 4096) (by unfold USIZE at hbound ⊢; omega)]
        simp only [hst] at hgt
        omega
    }
  · exfalso
    rw [hbn, hup] at h1
    simp only [EarlyAllocator.init] at h1
    omega

/-- Witness for c7_amended at A = 4096. -/
theorem c7_witness :
    ((4096 : Nat) ∣ 4096) ∧ (4096 + 65544 ≤ USIZE) ∧
    ((EarlyAllocator.alloc 4096 8 8 (EarlyAllocator.init 4096 65536)).1 = Except.ok 4096 ∧
     ((EarlyAllocator.alloc 4096 8 8 (EarlyAllocator.init 4096 65536)).2).b_end = 4096 + 4096 ∧
     (EarlyAllocator.alloc_pages 4096 2 4096
         ((EarlyAllocator.alloc 4096 8 8 (EarlyAllocator.init 4096 65536)).2)).1 =
       Except.ok (4096 + 65536 - 8192) ∧
     ((EarlyAllocator.alloc_pages 4096 2 4096
         ((EarlyAllocator.alloc 4096 8 8 (EarlyAllocator.init 4096 65536)).2)).2).p_end =
       4096 + 65536) :=
  ⟨by decide, by decide, c7_amended 4096 (by decide) (by decide)⟩

/-! ### C8: deallocating the last byte allocation resets the byte frontier -/

/-- C8 counterexample: with start = 1, after the count returns to zero the
next successful allocation with alignment 2 returns 2, not the region's
original start 1: the returned address is align_up(start, align). -/
theorem c8_counterexample :
    ((EarlyAllocator.alloc 4096 1 2
        (EarlyAllocator.dealloc
          ((EarlyAllocator.alloc 4096 1 1 (EarlyAllocator.init 1 8192)).2))).1 =
      Except.ok 2) ∧
    (EarlyAllocator.init 1 8192).start = 1 ∧ (2 : Nat) ≠ 1 := by decide

/-- C8 (amended): from any state with b_alloc = 1, dealloc zeroes the count and
resets b_next to start leaving every other field unchanged, and the next
successful byte allocation returns align_up(start, align), which equals start
exactly when the requested alignment divides start. -/
theorem c8_dealloc_reset (PAGE size align k : Nat) (s : EarlyAllocator) (addr : Nat)
    (h1 : s.b_alloc = 1) :
    EarlyAllocator.dealloc s = { s with b_alloc := 0, b_next := s.start } ∧
    (align = 2 ^ k → align ∣ s.start → s.start + align + size ≤ USIZE →
      (EarlyAllocator.alloc PAGE size align (EarlyAllocator.dealloc s)).1 = Except.ok addr →
      addr = s.start) := by
  have hd : EarlyAllocator.dealloc s = { s with b_alloc := 0, b_next := s.start } := by
    unfold EarlyAllocator.dealloc
    simp [h1]
  refine ⟨hd, ?_⟩
  intro hk hdvd hb hok
  subst hk
  have hup : align_up s.start (2 ^ k) = s.start :=
    align_up_of_dvd s.start k hdvd (by omega)
  rcases alloc_cases PAGE size (2 ^ k) (EarlyAllocator.dealloc s) with
    ⟨_, _, he⟩ | ⟨_, _, he⟩ | ⟨_, he⟩ <;> rw [he] at hok <;>
    simp only [Except.ok.injEq] at hok
  · exact absurd hok (by simp)
  · rw [hd] at hok
    simp only at hok
    rw [hup] at hok
    omega
  · rw [hd] at hok
    simp only at hok
    rw [hup] at hok
    omega

/-- Witness for c8_dealloc_reset. -/
theorem c8_witness :
    (((EarlyAllocator.alloc 4096 1 1 (EarlyAllocator.init 4096 65536)).2).b_alloc = 1) ∧
    EarlyAllocator.dealloc ((EarlyAllocator.alloc 4096 1 1 (EarlyAllocator.init 4096 65536)).2) =
      { (EarlyAllocator.alloc 4096 1 1 (EarlyAllocator.init 4096 65536)).2 with
        b_alloc := 0,
        b_next := ((EarlyAllocator.alloc 4096 1 1 (EarlyAllocator.init 4096 65536)).2).start } ∧
    (4096 : Nat) = ((EarlyAllocator.alloc 4096 1 1 (EarlyAllocator.init 4096 65536)).2).start := by
  have h := c8_dealloc_reset 4096 1 1 0
    ((EarlyAllocator.alloc 4096 1 1 (EarlyAllocator.init 4096 65536)).2) 4096 (by decide)
  exact ⟨by decide, h.1, h.2 rfl (by decide) (by decide) (by decide)⟩

/-! ### C3: exhaustion -/

/-- align_up is below input + alignment when the computation stays in usize
range. -/
theorem align_up_le_add (x k : Nat) (hx : x + 2 ^ k ≤ USIZE) :
    align_up x (2 ^ k) ≤ x + 2 ^ k - 1 := by
  have h1 : (1 : Nat) ≤ 2 ^ k := Nat.one_le_two_pow
  have hk : k ≤ 64 := pow_le_sixtyfour (by unfold USIZE at hx; omega)
  rw [align_up_eq x k hk (by omega)]
  omega

/-- Repeated byte allocation with a fixed request. -/
def iterAlloc (PAGE size align : Nat) : Nat → EarlyAllocator → EarlyAllocator
  | 0, s => s
  | n + 1, s => iterAlloc PAGE size align n (EarlyAllocator.alloc PAGE size align s).2

/-- Repeated byte allocation from any invariant state within a usize-sized
budget eventually fails with NoMemory, and the failing call mutates nothing. -/
theorem alloc_exhaust (PAGE size align k : Nat) (hP : 0 < PAGE) (hs : 0 < size)
    (halign : align = 2 ^ k) :
    ∀ N s, StateInv s →
      (s.p_end - s.b_end) + (s.b_end - s.b_next) ≤ N →
      s.b_next + (align + size) * ((s.p_end - s.b_end) / PAGE + 1) ≤
        s.p_end + (align + size) * ((s.p_end - s.start) / PAGE + 2) →
      s.p_end + (align + size) * ((s.p_end - s.start) / PAGE + 2) < USIZE →
      ∃ n, (EarlyAllocator.alloc PAGE size align (iterAlloc PAGE size align n s)).1 =
             Except.error AllocError.NoMemory ∧
           (EarlyAllocator.alloc PAGE size align (iterAlloc PAGE size align n s)).2 =
             iterAlloc PAGE size align n s := by
  intro N
  induction N using Nat.strong_induction_on with
  | _ N ih =>
    intro s hI hm hB hD
    obtain ⟨hI1, hI2, hI3, hI4, hI5⟩ := hI
    have hapos : 0 < align := by rw [halign]; exact Nat.one_le_two_pow
    have hone : (align + size) * 1 ≤ (align + size) * ((s.p_end - s.b_end) / PAGE + 1) :=
      mul_le_mul_left' (Nat.le_add_left 1 _) _
    rw [Nat.mul_one] at hone
    have hbu : s.b_next + align ≤ USIZE := by omega
    have hup_ge : s.b_next ≤ align_up s.b_next align := by
      subst halign; exact align_up_ge _ _ hbu
    have hup_le : align_up s.b_next align ≤ s.b_next + align - 1 := by
      subst halign; exact align_up_le_add _ _ hbu
    have hqle : (s.p_end - s.b_end) / PAGE ≤ (s.p_end - s.start) / PAGE :=
      Nat.div_le_div_right (by omega)
    have hqmul : (align + size) * ((s.p_end - s.b_end) / PAGE + 1) ≤
        (align + size) * ((s.p_end - s.start) / PAGE + 1) :=
      mul_le_mul_left' (Nat.add_le_add_right hqle 1) _
    have hsplit : (align + size) * ((s.p_end - s.start) / PAGE + 2) =
        (align + size) * ((s.p_end - s.start) / PAGE + 1) + (align + size) := by ring
    rcases alloc_cases PAGE size align s with ⟨h1, h2, he⟩ | ⟨h1, h2, he⟩ | ⟨h1, he⟩
    · refine ⟨0, ?_, ?_⟩ <;> simp [iterAlloc, he]
    · -- growth success: b_end advances one page, q drops by one
      have hq : (s.p_end - s.b_end) / PAGE = (s.p_end - (s.b_end + PAGE)) / PAGE + 1 := by
        have hy : s.p_end - s.b_end = (s.p_end - (s.b_end + PAGE)) + PAGE := by omega
        rw [hy, Nat.add_div_right _ hP]
      have hqmul2 : (align + size) * ((s.p_end - s.b_end) / PAGE + 1) =
          (align + size) * ((s.p_end - (s.b_end + PAGE)) / PAGE + 1) + (align + size) := by
        rw [hq]; ring
      have hdec : (s.p_end - (s.b_end + PAGE)) +
          ((s.b_end + PAGE) - (align_up s.b_next align + size)) <
          (s.p_end - s.b_end) + (s.b_end - s.b_next) := by omega
      obtain ⟨n, hn1, hn2⟩ := ih
        ((s.p_end - (s.b_end + PAGE)) + ((s.b_end + PAGE) - (align_up s.b_next align + size)))
        (by omega)
        { s with b_end := s.b_end + PAGE, b_alloc := s.b_alloc + 1,
                 b_next := align_up s.b_next align + size }
        (⟨by show s.start ≤ align_up s.b_next align + size; omega,
          by show s.start ≤ s.b_end + PAGE; omega,
          by show s.b_end + PAGE ≤ s.p_end; omega, hI4, hI5⟩)
        (le_refl _)
        (by
          show align_up s.b_next align + size +
              (align + size) * ((s.p_end - (s.b_end + PAGE)) / PAGE + 1) ≤
            s.p_end + (align + size) * ((s.p_end - s.start) / PAGE + 2)
          omega)
        (by
          show s.p_end + (align + size) * ((s.p_end - s.start) / PAGE + 2) < USIZE
          exact hD)
      refine ⟨n + 1, ?_, ?_⟩ <;> simp only [iterAlloc] <;> rw [he]
      · exact hn1
      · exact hn2
    · -- in-ceiling success: b_next advances strictly below the fixed ceiling
      have hdec : (s.p_end - s.b_end) + (s.b_end - (align_up s.b_next align + size)) <
          (s.p_end - s.b_end) + (s.b_end - s.b_next) := by omega
      obtain ⟨n, hn1, hn2⟩ := ih
        ((s.p_end - s.b_end) + (s.b_end - (align_up s.b_next align + size)))
        (by omega)
        { s with b_alloc := s.b_alloc + 1, b_next := align_up s.b_next align + size }
        (⟨by show s.start ≤ align_up s.b_next align + size; omega, hI2, hI3, hI4, hI5⟩)
        (le_refl _)
        (by
          show align_up s.b_next align + size +
              (align + size) * ((s.p_end - s.b_end) / PAGE + 1) ≤
            s.p_end + (align + size) * ((s.p_end - s.start) / PAGE + 2)
          omega)
        (by
          show s.p_end + (align + size) * ((s.p_end - s.start) / PAGE + 2) < USIZE
          exact hD)
      refine ⟨n + 1, ?_, ?_⟩ <;> simp only [iterAlloc] <;> rw [he]
      · exact hn1
      · exact hn2

/-- C3 counterexample: page allocation never reports OutOfMemory.  From
init(4096, 8192), two valid one-page allocations collapse the gap completely
(p_next = b_end); a third valid one-page allocation still succeeds, returning
address 0 below the region start, instead of failing with NoMemory. -/
theorem c3_counterexample :
    ValidTrace 4096 (EarlyAllocator.init 4096 8192)
      [Op.opAllocPages 1 4096, Op.opAllocPages 1 4096, Op.opAllocPages 1 4096] ∧
    (run 4096 (EarlyAllocator.init 4096 8192)
        [Op.opAllocPages 1 4096, Op.opAllocPages 1 4096]).p_next =
      (run 4096 (EarlyAllocator.init 4096 8192)
        [Op.opAllocPages 1 4096, Op.opAllocPages 1 4096]).b_end ∧
    (EarlyAllocator.alloc_pages 4096 1 4096
        (run 4096 (EarlyAllocator.init 4096 8192)
          [Op.opAllocPages 1 4096, Op.opAllocPages 1 4096])).1 = Except.ok 0 ∧
    (0 : Nat) < (EarlyAllocator.init 4096 8192).start := by
  refine ⟨⟨?_, ?_, ?_, trivial⟩, by decide, by decide, by decide⟩ <;> (unfold ValidOp; decide)

/-- C3 (amended): repeated byte allocation with any fixed positive size and
power-of-two alignment, from any invariant state whose byte frontier has not
passed the page floor and whose region leaves usize headroom, eventually fails
with NoMemory, and the failing call leaves the state untouched; page
allocation, in contrast, never returns NoMemory from any invariant state. -/
theorem c3_exhaustion (PAGE size align k : Nat) (s : EarlyAllocator)
    (hP : 0 < PAGE) (hs : 0 < size) (halign : align = 2 ^ k)
    (hI : StateInv s) (hbp : s.b_next ≤ s.p_end)
    (hD : s.p_end + (align + size) * ((s.p_end - s.start) / PAGE + 2) < USIZE) :
    (∃ n, (EarlyAllocator.alloc PAGE size align (iterAlloc PAGE size align n s)).1 =
            Except.error AllocError.NoMemory ∧
          (EarlyAllocator.alloc PAGE size align (iterAlloc PAGE size align n s)).2 =
            iterAlloc PAGE size align n s) ∧
    (∀ np a s', StateInv s' →
      (EarlyAllocator.alloc_pages PAGE np a s').1 ≠ Except.error AllocError.NoMemory) := by
  constructor
  · refine alloc_exhaust PAGE size align k hP hs halign
      ((s.p_end - s.b_end) + (s.b_end - s.b_next)) s hI (le_refl _) ?_ hD
    obtain ⟨hI1, hI2, hI3, hI4, hI5⟩ := hI
    have hqle : (s.p_end - s.b_end) / PAGE ≤ (s.p_end - s.start) / PAGE :=
      Nat.div_le_div_right (by omega)
    have hqmul : (align + size) * ((s.p_end - s.b_end) / PAGE + 1) ≤
        (align + size) * ((s.p_end - s.start) / PAGE + 2) :=
      mul_le_mul_left' (by omega) _
    omega
  · intro np a s' hI'
    exact alloc_pages_ne_noMemory PAGE np a s' hI'.2.2.1 hI'.2.2.2.1

/-- Witness for c3_exhaustion on the initial state of an 8192-byte region. -/
theorem c3_witness :
    StateInv (EarlyAllocator.init 4096 8192) ∧
    (∃ n, (EarlyAllocator.alloc 4096 1 1
             (iterAlloc 4096 1 1 n (EarlyAllocator.init 4096 8192))).1 =
            Except.error AllocError.NoMemory ∧
          (EarlyAllocator.alloc 4096 1 1
             (iterAlloc 4096 1 1 n (EarlyAllocator.init 4096 8192))).2 =
            iterAlloc 4096 1 1 n (EarlyAllocator.init 4096 8192)) ∧
    (EarlyAllocator.alloc_pages 4096 1 4096 (EarlyAllocator.init 4096 8192)).1 ≠
      Except.error AllocError.NoMemory := by
  have hI : StateInv (EarlyAllocator.init 4096 8192) := by unfold StateInv; decide
  have h := c3_exhaustion 4096 1 1 0 (EarlyAllocator.init 4096 8192)
    (by decide) (by decide) rfl hI (by decide) (by decide)
  exact ⟨hI, h.1, h.2 1 4096 (EarlyAllocator.init 4096 8192) hI⟩

/-! ### C4: overlap of returned ranges -/

/-- The half-open ranges returned by the successful allocations of a trace:
byte ranges from alloc (address to address + size) and page ranges from
alloc_pages (address to address + num_pages * PAGE). -/
def runRanges (PAGE : Nat) : EarlyAllocator → List Op → List (Nat × Nat) × List (Nat × Nat)
  | _, [] => ([], [])
  | s, op :: rest =>
      let res := runRanges PAGE (step PAGE s op) rest
      match op with
      | Op.opAlloc size align =>
          match (EarlyAllocator.alloc PAGE size align s).1 with
          | Except.ok addr => ((addr, addr + size) :: res.1, res.2)
          | Except.error _ => res
      | Op.opAllocPages n a =>
          match (EarlyAllocator.alloc_pages PAGE n a s).1 with
          | Except.ok addr => (res.1, (addr, addr + n * PAGE) :: res.2)
          | Except.error _ => res
      | _ => res

/-- Two half-open ranges do not overlap. -/
def Disj (r1 r2 : Nat × Nat) : Prop := r1.2 ≤ r2.1 ∨ r2.2 ≤ r1.1

/-- An operation that allocates (no deallocation, no add_memory). -/
def isAllocOp : Op → Bool
  | Op.opAlloc _ _ => true
  | Op.opAllocPages _ _ => true
  | _ => false

/-- A trace consisting of allocations only. -/
def AllocOnly (ops : List Op) : Prop := ∀ op ∈ ops, isAllocOp op = true

/-- Walking a valid allocation-only trace, all byte ranges start at or after
the current byte frontier, all page ranges end at or before the current page
frontier, and the ranges within each zone are pairwise disjoint. -/
theorem runRanges_disjoint (PAGE : Nat) :
    ∀ ops s, ValidTrace PAGE s ops → AllocOnly ops →
      (∀ r ∈ (runRanges PAGE s ops).1, s.b_next ≤ r.1) ∧
      (∀ r ∈ (runRanges PAGE s ops).2, r.2 ≤ s.p_next) ∧
      (runRanges PAGE s ops).1.Pairwise Disj ∧
      (runRanges PAGE s ops).2.Pairwise Disj := by
  intro ops
  induction ops with
  | nil =>
      intro s _ _
      simp [runRanges]
  | cons op rest ih =>
      intro s hV hAO
      obtain ⟨hop, hrest⟩ := hV
      have hAO' : AllocOnly rest := fun o ho => hAO o (List.mem_cons_of_mem _ ho)
      have hAOop : isAllocOp op = true := hAO op (List.mem_cons_self _ _)
      obtain ⟨ihb, ihp, ihpb, ihpp⟩ := ih (step PAGE s op) hrest hAO'
      cases op with
      | opAlloc size align =>
          obtain ⟨⟨k, hk⟩, hb⟩ := hop
          have hge : s.b_next ≤ align_up s.b_next align := by
            subst hk; exact align_up_ge _ _ (by omega)
          rcases alloc_cases PAGE size align s with ⟨_, _, he⟩ | ⟨_, _, he⟩ | ⟨_, he⟩
          · simp only [step, he] at ihb ihp ihpb ihpp
            simp only [runRanges, he, step]
            exact ⟨ihb, ihp, ihpb, ihpp⟩
          all_goals {
            simp only [step, he] at ihb ihp ihpb ihpp
            simp only [runRanges, step, he]
            refine ⟨?_, ihp, ?_, ihpp⟩
            · intro r hr
              rcases List.mem_cons.mp hr with hr | hr
              · subst hr; exact hge
              · have h2 : align_up s.b_next align + size ≤ r.1 := ihb r hr
                omega
            · rw [List.pairwise_cons]
              refine ⟨?_, ihpb⟩
              intro r hr
              have h2 : align_up s.b_next align + size ≤ r.1 := ihb r hr
              exact Or.inl h2
          }
      | opAllocPages n a =>
          rcases alloc_pages_cases PAGE n a s with
            ⟨h0, he⟩ | ⟨h0, _, _, he⟩ | ⟨h0, _, _, he⟩ | ⟨h0, _, he⟩
          · simp only [step, he] at ihb ihp ihpb ihpp
            simp only [runRanges, he, step]
            exact ⟨ihb, ihp, ihpb, ihpp⟩
          · simp only [step, he] at ihb ihp ihpb ihpp
            simp only [runRanges, he, step]
            exact ⟨ihb, ihp, ihpb, ihpp⟩
          all_goals {
            have hnp : n * PAGE ≤ s.p_next := (hop h0).2
            have hle : align_down (s.p_next - n * PAGE) (a / PAGE) ≤ s.p_next - n * PAGE :=
              align_down_le _ _
            simp only [step, he] at ihb ihp ihpb ihpp
            simp only [runRanges, step, he]
            refine ⟨ihb, ?_, ihpb, ?_⟩
            · intro r hr
              rcases List.mem_cons.mp hr with hr | hr
              · subst hr
                show align_down (s.p_next - n * PAGE) (a / PAGE) + n * PAGE ≤ s.p_next
                omega
              · have h2 : r.2 ≤ align_down (s.p_next - n * PAGE) (a / PAGE) := ihp r hr
                omega
            · rw [List.pairwise_cons]
              refine ⟨?_, ihpp⟩
              intro r hr
              have h2 : r.2 ≤ align_down (s.p_next - n * PAGE) (a / PAGE) := ihp r hr
              exact Or.inr h2
          }
      | opDealloc => simp [isAllocOp] at hAOop
      | opDeallocPages => simp [isAllocOp] at hAOop
      | opAddMemory st sz => simp [isAllocOp] at hAOop

/-- C4 counterexample: from init(4096, 8192) (a nonzero start, so every byte
allocation returns a nonzero address and the run is a real execution), the
valid allocation-only trace alloc(8, 8); alloc_pages(1, 4096);
alloc_pages(1, 4096) returns the byte range [4096, 4104) and later the page
range [4096, 8192), which overlap, and the second page address 4096 lies
below the byte frontier b_next = 4104. -/
theorem c4_counterexample :
    ValidTrace 4096 (EarlyAllocator.init 4096 8192)
      [Op.opAlloc 8 8, Op.opAllocPages 1 4096, Op.opAllocPages 1 4096] ∧
    AllocOnly [Op.opAlloc 8 8, Op.opAllocPages 1 4096, Op.opAllocPages 1 4096] ∧
    ((4096, 4104) ∈ (runRanges 4096 (EarlyAllocator.init 4096 8192)
      [Op.opAlloc 8 8, Op.opAllocPages 1 4096, Op.opAllocPages 1 4096]).1) ∧
    ((4096, 8192) ∈ (runRanges 4096 (EarlyAllocator.init 4096 8192)
      [Op.opAlloc 8 8, Op.opAllocPages 1 4096, Op.opAllocPages 1 4096]).2) ∧
    ¬ Disj (4096, 4104) (4096, 8192) ∧
    (4096 : Nat) < (run 4096 (EarlyAllocator.init 4096 8192)
      [Op.opAlloc 8 8, Op.opAllocPages 1 4096, Op.opAllocPages 1 4096]).b_next := by
  refine ⟨⟨⟨⟨3, rfl⟩, by decide⟩, by unfold ValidOp; decide, by unfold ValidOp; decide, trivial⟩,
    by unfold AllocOnly; decide, by decide, by decide, by unfold Disj; decide, by decide⟩

/-- C4 (amended): over every valid allocation-only trace from an initialized
allocator, the returned byte ranges are pairwise disjoint and the returned
page ranges are pairwise disjoint; but a page range may cross the byte zone's
frontier (and conversely), so ranges of opposite zones can overlap. -/
theorem c4_nonoverlap (PAGE start size : Nat) (ops : List Op)
    (hV : ValidTrace PAGE (EarlyAllocator.init start size) ops) (hAO : AllocOnly ops) :
    (runRanges PAGE (EarlyAllocator.init start size) ops).1.Pairwise Disj ∧
    (runRanges PAGE (EarlyAllocator.init start size) ops).2.Pairwise Disj :=
  ⟨(runRanges_disjoint PAGE ops _ hV hAO).2.2.1,
   (runRanges_disjoint PAGE ops _ hV hAO).2.2.2⟩

/-- Witness for c4_nonoverlap on a concrete mixed trace. -/
theorem c4_witness :
    ValidTrace 4096 (EarlyAllocator.init 4096 8192)
      [Op.opAlloc 8 8, Op.opAllocPages 1 4096] ∧
    AllocOnly [Op.opAlloc 8 8, Op.opAllocPages 1 4096] ∧
    (runRanges 4096 (EarlyAllocator.init 4096 8192)
      [Op.opAlloc 8 8, Op.opAllocPages 1 4096]).1.Pairwise Disj ∧
    (runRanges 4096 (EarlyAllocator.init 4096 8192)
      [Op.opAlloc 8 8, Op.opAllocPages 1 4096]).2.Pairwise Disj := by
  have hV : ValidTrace 4096 (EarlyAllocator.init 4096 8192)
      [Op.opAlloc 8 8, Op.opAllocPages 1 4096] :=
    ⟨⟨⟨3, rfl⟩, by decide⟩, by unfold ValidOp; decide, trivial⟩
  have hAO : AllocOnly [Op.opAlloc 8 8, Op.opAllocPages 1 4096] := by
    unfold AllocOnly; decide
  have h := c4_nonoverlap 4096 4096 8192 [Op.opAlloc 8 8, Op.opAllocPages 1 4096] hV hAO
  exact ⟨hV, hAO, h.1, h.2⟩

/-! ### C10: the axstd chained-bucket HashMap -/

/-- The axstd HashMap: a vector of buckets of key-value pairs, an element
count, and the fixed hash seed (field stamp). -/
structure HashMap (K V : Type) where
  tab : List (List (K × V))
  size : Nat
  stamp : Nat

namespace HashMap

/-- HashMap::new: 16 empty buckets, size 0, the fixed stamp seed. -/
def new (K V : Type) : HashMap K V :=
  { tab := List.replicate 16 [], size := 0, stamp := 1145141919810 }

/-- The byte loop of HashMap::hash: hash = (hash << 5).wrapping_add(hash) ^ byte,
with usize wrapping arithmetic. -/
def hashBytes (stamp : Nat) (bs : List Nat) : Nat :=
  bs.foldl (fun h b => Nat.xor (((h <<< 5) % USIZE + h) % USIZE) b) stamp

/-- HashMap::hash: the byte loop over the key's byte view (the AsRef bound in
Rust, modelled by the bytes parameter), reduced modulo the table length. -/
def hash (bytes : K → List Nat) (m : HashMap K V) (key : K) : Nat :=
  hashBytes m.stamp (bytes key) % m.tab.length

/-- Vec::resize(n, Vec::new()): truncate or pad with empty buckets. -/
def resize (t : List (List (K × V))) (n : Nat) : List (List (K × V)) :=
  t.take n ++ List.replicate (n - t.length) []

/-- The replace-in-place loop of HashMap::insert: overwrite the value of the
first pair with the given key, or report that no pair matched. -/
def replaceInBucket [DecidableEq K] (k : K) (v : V) :
    List (K × V) → Option (List (K × V))
  | [] => none
  | (k1, v1) :: rest =>
      if k1 = k then some ((k1, v) :: rest)
      else (replaceInBucket k v rest).map (fun l => (k1, v1) :: l)

/-- HashMap::insert. -/
def insert [DecidableEq K] (bytes : K → List Nat) (m : HashMap K V) (k : K) (v : V) :
    HashMap K V :=
  let h := hash bytes m k
  let m1 := if h ≥ m.tab.length then { m with tab := resize m.tab (h * 2) } else m
  let bucket := m1.tab.getD h []
  match replaceInBucket k v bucket with
  | some b1 => { m1 with tab := m1.tab.set h b1 }
  | none => { m1 with tab := m1.tab.set h (bucket ++ [(k, v)]), size := m1.size + 1 }

/-- HashMap::get: scan the bucket for the first pair with the key. -/
def get [DecidableEq K] (bytes : K → List Nat) (m : HashMap K V) (k : K) : Option V :=
  ((m.tab.getD (hash bytes m k) []).find? (fun p => decide (p.1 = k))).map (fun p => p.2)

/-- The position-then-remove pair of HashMap::remove, as one traversal:
remove the first pair with the key and return its value. -/
def removeFromBucket [DecidableEq K] (k : K) :
    List (K × V) → Option (V × List (K × V))
  | [] => none
  | (k1, v1) :: rest =>
      if k1 = k then some (v1, rest)
      else (removeFromBucket k rest).map (fun r => (r.1, (k1, v1) :: r.2))

/-- HashMap::remove: returns the removed value (if any) and the new map. -/
def remove [DecidableEq K] (bytes : K → List Nat) (m : HashMap K V) (k : K) :
    Option V × HashMap K V :=
  let h := hash bytes m k
  let bucket := m.tab.getD h []
  match removeFromBucket k bucket with
  | some r => (some r.1, { m with tab := m.tab.set h r.2, size := m.size - 1 })
  | none => (none, m)

/-- Well-formedness: a nonempty table whose buckets have pairwise distinct
keys.  It holds for new and is preserved by insert and remove. -/
def WF [DecidableEq K] (m : HashMap K V) : Prop :=
  0 < m.tab.length ∧ ∀ b ∈ m.tab, (b.map Prod.fst).Nodup

end HashMap

/-- getD after set at the same in-range index returns the new element. -/
theorem getD_set_self {α : Type} (l : List α) (h : Nat) (b d : α) (hlt : h < l.length) :
    (l.set h b).getD h d = b := by
  rw [List.getD_eq_getElem?_getD, List.getElem?_set_self hlt]
  rfl

/-- getD at an in-range index is an element of the list. -/
theorem getD_mem {α : Type} (l : List α) (h : Nat) (d : α) (hlt : h < l.length) :
    l.getD h d ∈ l := by
  rw [List.getD_eq_getElem?_getD, List.getElem?_eq_getElem hlt]
  exact List.getElem_mem hlt

namespace HashMap

/-- After a successful in-place replacement, the first pair with the key holds
the new value. -/
theorem replaceInBucket_find [DecidableEq K] (k : K) (v : V) :
    ∀ l l1, replaceInBucket k v l = some l1 →
      (l1.find? (fun p => decide (p.1 = k))).map (fun p => p.2) = some v := by
  intro l
  induction l with
  | nil => intro l1 hr; simp [replaceInBucket] at hr
  | cons p rest ih =>
      intro l1 hr
      obtain ⟨k1, v1⟩ := p
      by_cases hk : k1 = k
      · simp only [replaceInBucket, if_pos hk] at hr
        rw [Option.some.injEq] at hr
        subst hr
        rw [List.find?_cons_of_pos _ (by simpa using hk)]
        rfl
      · simp only [replaceInBucket, if_neg hk] at hr
        obtain ⟨l2, hl2, rfl⟩ := Option.map_eq_some'.mp hr
        rw [List.find?_cons_of_neg _ (by simpa using hk)]
        exact ih l2 hl2

/-- A failed replacement means no pair in the bucket has the key. -/
theorem replaceInBucket_none [DecidableEq K] (k : K) (v : V) :
    ∀ l, replaceInBucket k v l = none →
      l.find? (fun p => decide (p.1 = k)) = none := by
  intro l
  induction l with
  | nil => intro _; rfl
  | cons p rest ih =>
      intro hr
      obtain ⟨k1, v1⟩ := p
      by_cases hk : k1 = k
      · simp [replaceInBucket, if_pos hk] at hr
      · simp only [replaceInBucket, if_neg hk, Option.map_eq_none'] at hr
        rw [List.find?_cons_of_neg _ (by simpa using hk)]
        exact ih hr

/-- A pair with the key in the bucket guarantees replacement succeeds. -/
theorem replaceInBucket_some_of_mem [DecidableEq K] (k : K) (v : V) :
    ∀ l (p : K × V), p ∈ l → p.1 = k → ∃ l1, replaceInBucket k v l = some l1 := by
  intro l
  induction l with
  | nil => intro p hp _; simp at hp
  | cons q rest ih =>
      intro p hp hpk
      obtain ⟨k1, v1⟩ := q
      by_cases hk : k1 = k
      · exact ⟨(k1, v) :: rest, by simp [replaceInBucket, if_pos hk]⟩
      · rcases List.mem_cons.mp hp with rfl | hp
        · exact absurd hpk hk
        · obtain ⟨l2, hl2⟩ := ih p hp hpk
          exact ⟨(k1, v1) :: l2, by simp [replaceInBucket, if_neg hk, hl2]⟩

/-- The pair found by get is the one the removal loop removes. -/
theorem removeFromBucket_of_find [DecidableEq K] (k : K) :
    ∀ l (p : K × V), l.find? (fun q => decide (q.1 = k)) = some p →
      ∃ l1, removeFromBucket k l = some (p.2, l1) := by
  intro l
  induction l with
  | nil => intro p hp; simp at hp
  | cons q rest ih =>
      intro p hp
      obtain ⟨k1, v1⟩ := q
      by_cases hk : k1 = k
      · rw [List.find?_cons_of_pos _ (by simpa using hk)] at hp
        rw [Option.some.injEq] at hp
        subst hp
        exact ⟨rest, by simp [removeFromBucket, if_pos hk]⟩
      · rw [List.find?_cons_of_neg _ (by simpa using hk)] at hp
        obtain ⟨l2, hl2⟩ := ih p hp
        exact ⟨(k1, v1) :: l2, by simp [removeFromBucket, if_neg hk, hl2]⟩

/-- After removing the first pair with the key from a bucket with pairwise
distinct keys, no pair with the key remains. -/
theorem removeFromBucket_keys [DecidableEq K] (k : K) :
    ∀ (l : List (K × V)) v l1, (l.map Prod.fst).Nodup →
      removeFromBucket k l = some (v, l1) → ∀ q ∈ l1, ¬ (q.1 = k) := by
  intro l
  induction l with
  | nil => intro v l1 _ hr; simp [removeFromBucket] at hr
  | cons q0 rest ih =>
      intro v l1 hnd hr
      obtain ⟨k1, v1⟩ := q0
      simp only [List.map_cons, List.nodup_cons] at hnd
      by_cases hk : k1 = k
      · simp only [removeFromBucket, if_pos hk] at hr
        rw [Option.some.injEq, Prod.mk.injEq] at hr
        obtain ⟨hv, hl⟩ := hr
        subst hl
        intro q hq hqk
        apply hnd.1
        have hmem : q.1 ∈ rest.map Prod.fst := List.mem_map_of_mem Prod.fst hq
        rwa [hqk, ← hk] at hmem
      · simp only [removeFromBucket, if_neg hk] at hr
        obtain ⟨⟨v2, l2⟩, hl2, heq⟩ := Option.map_eq_some'.mp hr
        rw [Prod.mk.injEq] at heq
        obtain ⟨hv, hl⟩ := heq
        subst hl
        intro q hq hqk
        rcases List.mem_cons.mp hq with rfl | hq
        · exact hk hqk
        · exact ih v2 l2 hnd.2 hl2 q hq hqk

end HashMap

namespace HashMap

/-- The bucket index is always within the table. -/
theorem hash_lt [DecidableEq K] (bytes : K → List Nat) (m : HashMap K V) (k : K)
    (hlen : 0 < m.tab.length) : hash bytes m k < m.tab.length :=
  Nat.mod_lt _ hlen

/-- On a nonempty table the resize branch of insert is dead code: the bucket
index is reduced modulo the table length, so it never reaches the length. -/
theorem insert_eq [DecidableEq K] (bytes : K → List Nat) (m : HashMap K V) (k : K) (v : V)
    (hlen : 0 < m.tab.length) :
    insert bytes m k v =
      match replaceInBucket k v (m.tab.getD (hash bytes m k) []) with
      | some b1 => { m with tab := m.tab.set (hash bytes m k) b1 }
      | none =>
          { m with tab := (m.tab.set (hash bytes m k) ((m.tab.getD (hash bytes m k) []) ++ [(k, v)])),
                   size := m.size + 1 } := by
  have hlt := hash_lt bytes m k hlen
  simp only [insert]
  rw [if_neg (by omega)]

/-- insert keeps the stamp and the table length (nonempty table). -/
theorem insert_stamp_length [DecidableEq K] (bytes : K → List Nat) (m : HashMap K V)
    (k : K) (v : V) (hlen : 0 < m.tab.length) :
    (insert bytes m k v).stamp = m.stamp ∧
    (insert bytes m k v).tab.length = m.tab.length := by
  rw [insert_eq bytes m k v hlen]
  cases hrep : replaceInBucket k v (m.tab.getD (hash bytes m k) []) <;>
    simp [List.length_set]

/-- insert does not change any bucket index. -/
theorem hash_insert [DecidableEq K] (bytes : K → List Nat) (m : HashMap K V)
    (k : K) (v : V) (k2 : K) (hlen : 0 < m.tab.length) :
    hash bytes (insert bytes m k v) k2 = hash bytes m k2 := by
  obtain ⟨h1, h2⟩ := insert_stamp_length bytes m k v hlen
  simp only [hash, h1, h2]

/-- get after insert of the same key returns the inserted value. -/
theorem get_insert [DecidableEq K] (bytes : K → List Nat) (m : HashMap K V)
    (k : K) (v : V) (hlen : 0 < m.tab.length) :
    get bytes (insert bytes m k v) k = some v := by
  have hlt := hash_lt bytes m k hlen
  have hh := hash_insert bytes m k v k hlen
  simp only [get, hh]
  rw [insert_eq bytes m k v hlen]
  cases hrep : replaceInBucket k v (m.tab.getD (hash bytes m k) []) with
  | some b1 =>
      simp only [hrep]
      rw [getD_set_self _ _ _ _ hlt]
      exact replaceInBucket_find k v _ b1 hrep
  | none =>
      simp only [hrep]
      rw [getD_set_self _ _ _ _ hlt]
      rw [List.find?_append, replaceInBucket_none k v _ hrep]
      simp only [Option.none_or]
      rw [List.find?_cons_of_pos _ (by simp)]
      rfl

end HashMap

/-- C10: on a well-formed axstd HashMap, get after insert returns the
inserted value; a second insert of the same key replaces the value without
changing size; remove of a present key returns its stored value, decrements
size, and leaves the key absent. -/
theorem c10_hashmap_ops {K V : Type} [DecidableEq K] (bytes : K → List Nat)
    (m : HashMap K V) (k : K) (v v1 : V) (hWF : HashMap.WF m) :
    HashMap.get bytes (HashMap.insert bytes m k v) k = some v ∧
    (HashMap.insert bytes (HashMap.insert bytes m k v) k v1).size =
      (HashMap.insert bytes m k v).size ∧
    HashMap.get bytes (HashMap.insert bytes (HashMap.insert bytes m k v) k v1) k = some v1 ∧
    ∀ v0, HashMap.get bytes m k = some v0 →
      (HashMap.remove bytes m k).1 = some v0 ∧
      (HashMap.remove bytes m k).2.size = m.size - 1 ∧
      HashMap.get bytes (HashMap.remove bytes m k).2 k = none := by
  obtain ⟨hlen, hnd⟩ := hWF
  have hlen1 : 0 < (HashMap.insert bytes m k v).tab.length := by
    rw [(HashMap.insert_stamp_length bytes m k v hlen).2]; exact hlen
  refine ⟨HashMap.get_insert bytes m k v hlen, ?_,
    HashMap.get_insert bytes (HashMap.insert bytes m k v) k v1 hlen1, ?_⟩
  · have hget := HashMap.get_insert bytes m k v hlen
    simp only [HashMap.get] at hget
    obtain ⟨p, hfind, hp2⟩ := Option.map_eq_some'.mp hget
    have hpmem := List.mem_of_find?_eq_some hfind
    have hpk : p.1 = k := by
      have h2 := List.find?_some hfind
      simpa using h2
    obtain ⟨l1, hl1⟩ := HashMap.replaceInBucket_some_of_mem k v1 _ p hpmem hpk
    rw [HashMap.insert_eq bytes (HashMap.insert bytes m k v) k v1 hlen1, hl1]
  · intro v0 hget
    simp only [HashMap.get] at hget
    obtain ⟨p, hfind, hp2⟩ := Option.map_eq_some'.mp hget
    obtain ⟨l1, hl1⟩ := HashMap.removeFromBucket_of_find k _ p hfind
    have hlt := HashMap.hash_lt bytes m k hlen
    have hbmem : m.tab.getD (HashMap.hash bytes m k) [] ∈ m.tab := getD_mem _ _ _ hlt
    have hbnd := hnd _ hbmem
    have hnone := HashMap.removeFromBucket_keys k _ p.2 l1 hbnd hl1
    refine ⟨?_, ?_, ?_⟩
    · simp only [HashMap.remove, hl1]
      rw [hp2]
    · simp only [HashMap.remove, hl1]
    · simp only [HashMap.get, HashMap.remove, hl1]
      have hh2 : HashMap.hash bytes
          { m with tab := m.tab.set (HashMap.hash bytes m k) l1, size := m.size - 1 } k =
          HashMap.hash bytes m k := by
        simp [HashMap.hash, List.length_set]
      rw [hh2]
      rw [getD_set_self _ _ _ _ hlt]
      have hfn : l1.find? (fun p => decide (p.1 = k)) = none :=
        List.find?_eq_none.mpr (fun x hx => by simpa using hnone x hx)
      rw [hfn]
      rfl

/-- Witness for c10_hashmap_ops on a concrete map with one entry. -/
theorem c10_witness :
    HashMap.WF (HashMap.insert (fun n : Nat => [n % 256]) (HashMap.new Nat Nat) 3 5) ∧
    HashMap.get (fun n : Nat => [n % 256])
      (HashMap.insert (fun n : Nat => [n % 256])
        (HashMap.insert (fun n : Nat => [n % 256])
          (HashMap.insert (fun n : Nat => [n % 256]) (HashMap.new Nat Nat) 3 5) 3 5) 3 7)
      3 = some 7 ∧
    (HashMap.remove (fun n : Nat => [n % 256])
      (HashMap.insert (fun n : Nat => [n % 256]) (HashMap.new Nat Nat) 3 5) 3).1 = some 5 ∧
    HashMap.get (fun n : Nat => [n % 256])
      (HashMap.remove (fun n : Nat => [n % 256])
        (HashMap.insert (fun n : Nat => [n % 256]) (HashMap.new Nat Nat) 3 5) 3).2
      3 = none := by
  have hWF : HashMap.WF
      (HashMap.insert (fun n : Nat => [n % 256]) (HashMap.new Nat Nat) 3 5) := by
    unfold HashMap.WF
    decide
  have h := c10_hashmap_ops (fun n : Nat => [n % 256])
    (HashMap.insert (fun n : Nat => [n % 256]) (HashMap.new Nat Nat) 3 5) 3 5 7 hWF
  exact ⟨hWF, h.2.2.1, (h.2.2.2 5 (by decide)).1, (h.2.2.2 5 (by decide)).2.2⟩
